import Mathlib

/-!
Verification of the training-and-packaging pipeline in src/train.py
(repository montasellx/mlops_workshop).

The pipeline builds a small CNN with Keras, trains it, and packages the
trained model together with two inference closures (preprocess and
postprocess) into a BentoML artifact.  The definitions below are a shallow
embedding of train.py: pure Python functions become Lean functions, the
layer list of the Keras Sequential model becomes a list of layer
descriptors, the I/O tail of main becomes an explicit list of effects, and
floating-point values are modelled by real numbers.
-/

set_option autoImplicit false

namespace MlopsWorkshop

/-! ### Model builder (train.py, get_model, lines 15-33) -/

/-- A Keras layer as it appears in the Sequential list of get_model.
Only the constructor arguments actually passed in train.py are modelled. -/
inductive Layer where
  | conv2D (filters : ℕ) (kernel : ℕ × ℕ) (activation : Option String)
      (inputShape : Option (ℕ × ℕ × ℕ))
  | maxPooling2D (pool : ℕ × ℕ)
  | flatten
  | dense (units : ℕ) (activation : Option String)
deriving DecidableEq

/-- Embedding of get_model: the Sequential layer list built in
train.py lines 22-32. -/
def get_model (image_shape : ℕ × ℕ × ℕ) (conv_size dense_size output_classes : ℕ) :
    List Layer :=
  [ Layer.conv2D conv_size (3, 3) (some "relu") (some image_shape),
    Layer.maxPooling2D (3, 3),
    Layer.flatten,
    Layer.dense dense_size (some "relu"),
    Layer.dense output_classes none ]

/-- Width of the final layer of a layer list, when that layer is a Dense layer. -/
def outputLayerWidth (layers : List Layer) : Option ℕ :=
  match layers.getLast? with
  | some (Layer.dense u _) => some u
  | _ => none

/-- Declared input shape of the first layer of a layer list, when that layer
is a Conv2D layer carrying an input_shape argument. -/
def inputLayerShape (layers : List Layer) : Option (ℕ × ℕ × ℕ) :=
  match layers.head? with
  | some (Layer.conv2D _ _ _ s) => s
  | _ => none

/-! ### CLI surface (train.py, main, lines 36-40)

main checks len(sys.argv) != 3 before any file is opened; in that branch it
prints the usage text and exits with status 1.  With exactly three argv
entries (program name plus two positional arguments) it proceeds to the
pipeline, reaching the end of main (process exit status 0) when the run
succeeds.  An uncaught exception terminates the process with status 1. -/

/-- Observable outcome of one invocation of main: the process exit status,
whether the usage message was printed, and whether the filesystem was
touched (params.yaml, dataset, model store or output folder). -/
structure MainObs where
  exitCode : ℕ
  printedUsage : Bool
  fsAccessed : Bool
deriving DecidableEq

/-- Embedding of the control flow of main (train.py lines 36-40 and fall
through): the argv-count guard runs before any filesystem access; past the
guard the pipeline runs, and runOk says whether it completed without an
uncaught exception. -/
def mainObs (argv : List String) (runOk : Bool) : MainObs :=
  if argv.length ≠ 3 then
    { exitCode := 1, printedUsage := true, fsAccessed := false }
  else if runOk then
    { exitCode := 0, printedUsage := false, fsAccessed := true }
  else
    { exitCode := 1, printedUsage := false, fsAccessed := true }

/-! ### Training history (train.py lines 81-85 and 128)

main calls model.fit(ds_train, epochs=epochs, validation_data=ds_test) and
later persists model.history.history unchanged via np.save.  The fit loop
itself lives in the external Keras engine; the spec (section 4.2) gives its
contract: exactly `epochs` passes, one record per epoch in order starting
at 1, metric values recorded as produced, non-finite values included. -/

/-- One per-epoch record of the Training History. -/
structure EpochRecord where
  epoch : ℕ
  loss : ℝ
  accuracy : ℝ
  val_loss : ℝ
  val_accuracy : ℝ

/-- The four metric values one epoch produces (train loss, train accuracy,
validation loss, validation accuracy), as an abstract oracle indexed by
epoch number: the embedding passes whatever the numeric engine produced
through unchanged, finite or not. -/
def MetricOracle : Type := ℕ → ℝ × ℝ × ℝ × ℝ

/-- Modelled from the spec: model.fit is the external Keras trainer, not
code of this repository; section 4.2 of the spec states it runs exactly
`epochs` passes and produces one history record per epoch, in epoch order
starting at 1, recording the metric values as produced. -/
def fitHistory (epochs : ℕ) (m : MetricOracle) : List EpochRecord :=
  (List.range epochs).map fun i =>
    { epoch := i + 1,
      loss := (m (i + 1)).1,
      accuracy := (m (i + 1)).2.1,
      val_loss := (m (i + 1)).2.2.1,
      val_accuracy := (m (i + 1)).2.2.2 }

/-! ### Deterministic seeding (train.py line 61)

main calls set_seed(seed) (from utils.seed, a module whose source is not
part of src/) before get_model (line 72), before tf.data.Dataset.load
(lines 64-65 run earlier but only read files), and before model.fit
(line 81). -/

/-- Process-wide pseudo-random number generator state. -/
def RngState : Type := ℕ

/-- Modelled from the spec: utils.seed.set_seed is code of this repository
that is not under src/; the spec (sections 1 and 9) describes it as a
single idempotent call establishing determinism for the pseudo-random
sources used by the model initializer and the training loop, re-seeding
deterministically from the configured seed alone.  It therefore replaces
whatever ambient RNG state the process had with a state computed from the
seed only. -/
def set_seed (seed : ℕ) : RngState := seed

/-- The pieces of the external numeric engine the training run draws on:
weight initialization and batch ordering consume the RNG state, training
consumes the initial weights and the batch sequence.  Weights and batch
sequences are abstract values (ℕ-coded). -/
structure Engine where
  initWeights : RngState → ℕ × ℕ × ℕ × ℕ → ℕ
  batches : RngState → ℕ → List ℕ
  run : ℕ → List ℕ → MetricOracle

/-- What a training run produces that the determinism contract talks
about: the initial weights, the sequence of batches presented, and the
Training History. -/
structure RunOutcome where
  initWeights : ℕ
  batchSeq : List ℕ
  history : List EpochRecord

/-- Embedding of the training part of main in the order of train.py:
set_seed(seed) at line 61 replaces the ambient RNG state before the model
is built (line 72) and before the dataset is iterated by model.fit
(line 81); cfg is (seed, epochs, conv_size, dense_size, output_classes
packed with the image shape code), ds codes the dataset. -/
def trainRun (e : Engine) (ambient : RngState) (seed : ℕ)
    (cfg : ℕ × ℕ × ℕ × ℕ) (epochs : ℕ) (ds : ℕ) : RunOutcome :=
  let _ := ambient
  let s := set_seed seed
  let w := e.initWeights s cfg
  let b := e.batches s ds
  let h := fitHistory epochs (e.run w b)
  { initWeights := w, batchSeq := b, history := h }

/-! ### Artifact packaging (train.py lines 88-130)

After training, main creates the output folder (mkdir parents=True,
line 88), registers the model with both closures in the BentoML store
under the fixed name (lines 111-119), exports the latest version of that
name to a single .bentomodel file (lines 122-125), saves the history with
np.save (line 128) and prints a confirmation with the absolute output path
(line 130). -/

/-- One observable side effect of the save phase of main. -/
inductive Effect where
  | mkdirParents (path : String)
  | bentoSave (name : String) (withPre : Bool) (withPost : Bool)
  | bentoExport (tag : String) (dest : String)
  | npySave (path : String) (history : List EpochRecord)
  | printMsg (msg : String)

/-- Embedding of the save phase of main (train.py lines 88-130), as the
ordered list of side effects it performs.  `absolute` stands for
Path.absolute of the ambient working directory. -/
def savePhase (absolute : String → String) (modelFolder : String)
    (history : List EpochRecord) : List Effect :=
  [ Effect.mkdirParents modelFolder,
    Effect.bentoSave "celestial_bodies_classifier_model" true true,
    Effect.bentoExport "celestial_bodies_classifier_model:latest"
      (modelFolder ++ "/celestial_bodies_classifier_model.bentomodel"),
    Effect.npySave (modelFolder ++ "/history.npy") history,
    Effect.printMsg ("\nModel saved at " ++ absolute modelFolder) ]

/-! ### Inference closure: preprocess (train.py lines 90-98)

preprocess converts the PIL image with x.convert, where the mode argument
is the string L when the captured grayscale flag is true and RGB
otherwise, resizes it to the captured image_size, turns it into a numpy
array (an L-mode image yields a rank-2 array with no channel axis, an
RGB-mode image a rank-3 array with a trailing axis of size 3), divides by
255.0 and prepends a batch axis with np.expand_dims(x, axis=0). -/

/-- PIL image mode: L is single-channel grayscale, RGB is three-channel
color. -/
inductive Mode where
  | L
  | RGB
deriving DecidableEq

/-- A PIL image: dimensions, mode, and the channel values of each pixel
(x, y) as a list of integers in [0, 255]; one entry per channel. -/
structure PILImage where
  width : ℕ
  height : ℕ
  mode : Mode
  px : ℕ → ℕ → List ℕ

/-- ITU-R 601-2 luma transform used by PIL for RGB to L conversion. -/
def luma (r g b : ℕ) : ℕ := (r * 299 + g * 587 + b * 114) / 1000

/-- Embedding of PIL Image.convert: RGB to L collapses the three channels
by the luma transform, L to RGB triplicates the single channel, converting
to the current mode leaves the pixels unchanged. -/
def convert (m : Mode) (img : PILImage) : PILImage :=
  { img with
    mode := m,
    px := fun x y =>
      match m, img.mode, img.px x y with
      | Mode.L, Mode.RGB, [r, g, b] => [luma r g b]
      | Mode.RGB, Mode.L, [v] => [v, v, v]
      | _, _, chans => chans }

/-- The resampling kernel of the external imaging library: given the source
image, the target size and a target pixel coordinate, it produces the
interpolated channel values.  PIL computes it; this embedding only relies
on the dimensions of the result, so the kernel is an opaque parameter. -/
def Resampler : Type := PILImage → ℕ × ℕ → ℕ → ℕ → List ℕ

/-- Embedding of PIL Image.resize(size): size is (width, height); the
result has exactly those dimensions, keeps the mode, and its pixels come
from the resampling kernel.  Any source dimensions are accepted. -/
def resize (resample : Resampler) (size : ℕ × ℕ) (img : PILImage) : PILImage :=
  { width := size.1,
    height := size.2,
    mode := img.mode,
    px := fun x y => resample img size x y }

/-- A numpy ndarray: its shape and its elements flattened in row-major
order, as rationals (exact model of the float values). -/
structure NDArray where
  shape : List ℕ
  data : List ℚ

/-- Embedding of np.array on a PIL image: an L-mode image of height h and
width w yields shape [h, w] (no channel axis), an RGB-mode image yields
shape [h, w, 3]; the data lists every channel value in row-major order. -/
def npOfImage (img : PILImage) : NDArray :=
  { shape :=
      match img.mode with
      | Mode.L => [img.height, img.width]
      | Mode.RGB => [img.height, img.width, 3],
    data :=
      ((List.range img.height).map fun y =>
        ((List.range img.width).map fun x =>
          (img.px x y).map fun v => (v : ℚ)).flatten).flatten }

/-- Elementwise division of an ndarray by a scalar (x / 255.0). -/
def divScalar (a : NDArray) (c : ℚ) : NDArray :=
  { shape := a.shape, data := a.data.map fun v => v / c }

/-- np.expand_dims(x, axis=0): prepend a batch axis of size 1. -/
def expandDims0 (a : NDArray) : NDArray :=
  { shape := 1 :: a.shape, data := a.data }

/-- Embedding of the preprocess closure (train.py lines 90-98), capturing
the grayscale flag and image_size from the configuration; resample stands
for the imaging library resampling kernel used by Image.resize. -/
def preprocess (grayscale : Bool) (image_size : ℕ × ℕ) (resample : Resampler)
    (x : PILImage) : NDArray :=
  let x1 := convert (if grayscale then Mode.L else Mode.RGB) x
  let x2 := resize resample image_size x1
  let x3 := npOfImage x2
  let x4 := divScalar x3 255
  expandDims0 x4

/-- Embedding of main line 51: image_shape = (*image_size, 1 if grayscale
else 3), the input shape handed to get_model. -/
def image_shape (image_size : ℕ × ℕ) (grayscale : Bool) : List ℕ :=
  [image_size.1, image_size.2, if grayscale then 1 else 3]

/-! ### Inference closure: postprocess (train.py lines 100-107)

postprocess receives the raw model output (a batch of one logits row),
looks up labels[tf.argmax(x, axis=-1).numpy()[0]] as the prediction, and
builds the probabilities dictionary by enumerating the softmax of the row
and looking up labels[i] for each index.  A Python list lookup out of
range raises IndexError; no other check exists.  The embedding works on
the single logits row, models floats as reals, and models the IndexError
paths by Option.none. -/

/-- Scan underlying tf.argmax: best value seen, its index, the index of
the next element; a strictly larger value replaces the best, so ties keep
the smallest index, as tf.argmax does. -/
noncomputable def argmaxAux : ℝ → ℕ → ℕ → List ℝ → ℕ
  | _, bi, _, [] => bi
  | best, bi, i, v :: rest =>
    if best < v then argmaxAux v i (i + 1) rest else argmaxAux best bi (i + 1) rest

/-- Embedding of tf.argmax on one logits row: index of the first maximal
element (0 on the empty row, which tf rejects; postprocess only receives
rows of length output_classes > 0). -/
noncomputable def argmaxIdx : List ℝ → ℕ
  | [] => 0
  | v :: rest => argmaxAux v 0 1 rest

/-- Embedding of tf.nn.softmax on one logits row. -/
noncomputable def softmax (x : List ℝ) : List ℝ :=
  x.map fun v => Real.exp v / (x.map Real.exp).sum

/-- The probabilities dictionary comprehension of postprocess: pairs
labels[i] with the i-th softmax probability, in index order; a lookup past
the end of the label list is an IndexError, modelled by none. -/
def probsAux (labels : List String) : ℕ → List ℝ → Option (List (String × ℝ))
  | _, [] => some []
  | i, p :: ps =>
    match labels.get? i, probsAux labels (i + 1) ps with
    | some name, some rest => some ((name, p) :: rest)
    | _, _ => none

/-- Embedding of the postprocess closure (train.py lines 100-107): the
prediction is labels[argmax of the row], the probabilities pair every
enumerated softmax entry with its label; either lookup out of range is an
IndexError, modelled by none. -/
noncomputable def postprocess (labels : List String) (x : List ℝ) :
    Option (String × List (String × ℝ)) :=
  match labels.get? (argmaxIdx x), probsAux labels 0 (softmax x) with
  | some pred, some probs => some (pred, probs)
  | _, _ => none

/-- The synthetic input of the round-trip property: a one-hot vector of
length n with the scaled value c at index k and zeros elsewhere. -/
def oneHotScaled (n k : ℕ) (c : ℝ) : List ℝ :=
  List.replicate k 0 ++ c :: List.replicate (n - (k + 1)) 0

end MlopsWorkshop

namespace MlopsWorkshop

/-! ## Theorems -/

/-- C1: for every image_shape and positive conv_size, dense_size,
output_classes, get_model is exactly the composition
Conv2D(conv_size, 3x3, ReLU, input_shape=image_shape) -> MaxPooling2D(3x3)
-> Flatten -> Dense(dense_size, ReLU) -> Dense(output_classes, no
activation); in particular its output layer width is output_classes and
its declared input shape is image_shape. -/
theorem get_model_structure (image_shape : ℕ × ℕ × ℕ)
    (conv_size dense_size output_classes : ℕ)
    (hc : 0 < conv_size) (hd : 0 < dense_size) (ho : 0 < output_classes) :
    get_model image_shape conv_size dense_size output_classes =
      [ Layer.conv2D conv_size (3, 3) (some "relu") (some image_shape),
        Layer.maxPooling2D (3, 3),
        Layer.flatten,
        Layer.dense dense_size (some "relu"),
        Layer.dense output_classes none ]
    ∧ outputLayerWidth (get_model image_shape conv_size dense_size output_classes) =
        some output_classes
    ∧ inputLayerShape (get_model image_shape conv_size dense_size output_classes) =
        some image_shape := by
  refine ⟨rfl, ?_, rfl⟩
  simp [get_model, outputLayerWidth, List.getLast?]

/-- Witness for C1 at image_shape (64, 64, 3), conv_size 32, dense_size 64,
output_classes 11. -/
theorem get_model_structure_witness :
    outputLayerWidth (get_model (64, 64, 3) 32 64 11) = some 11
    ∧ inputLayerShape (get_model (64, 64, 3) 32 64 11) = some (64, 64, 3) :=
  ⟨(get_model_structure (64, 64, 3) 32 64 11 (by decide) (by decide) (by decide)).2.1,
   (get_model_structure (64, 64, 3) 32 64 11 (by decide) (by decide) (by decide)).2.2⟩

/-- C5: whenever len(sys.argv) differs from 3 (any count other than exactly
two positional arguments), main prints the usage message and exits with
status 1 without touching the filesystem; with exactly two positional
arguments and a successful run it exits with status 0. -/
theorem main_cli_behavior (argv : List String) (runOk : Bool) :
    (argv.length ≠ 3 →
      mainObs argv runOk = { exitCode := 1, printedUsage := true, fsAccessed := false })
    ∧ (argv.length = 3 →
      mainObs argv true = { exitCode := 0, printedUsage := false, fsAccessed := true }) := by
  constructor
  · intro h
    simp [mainObs, h]
  · intro h
    simp [mainObs, h]

/-- Witness for C5: zero positional arguments (argv = [program name] only)
exits 1 with usage and no filesystem access; two positional arguments with
a successful run exit 0. -/
theorem main_cli_behavior_witness :
    mainObs ["train.py"] false =
      { exitCode := 1, printedUsage := true, fsAccessed := false }
    ∧ mainObs ["train.py", "data/prepared", "model"] true =
      { exitCode := 0, printedUsage := false, fsAccessed := true } :=
  ⟨(main_cli_behavior ["train.py"] false).1 (by decide),
   (main_cli_behavior ["train.py", "data/prepared", "model"] true).2 rfl⟩

/-- C6: on a successful run the save phase creates the output directory
(with parents) first, registers the trained model with both the preprocess
and postprocess closures under the fixed name
"celestial_bodies_classifier_model", exports the latest version of exactly
that name to the single file
modelFolder/celestial_bodies_classifier_model.bentomodel, separately
persists the training history to modelFolder/history.npy, and prints a
confirmation containing the absolute output path. -/
theorem savePhase_effects (absolute : String → String) (modelFolder : String)
    (history : List EpochRecord) :
    (savePhase absolute modelFolder history).head? =
      some (Effect.mkdirParents modelFolder)
    ∧ savePhase absolute modelFolder history =
      [ Effect.mkdirParents modelFolder,
        Effect.bentoSave "celestial_bodies_classifier_model" true true,
        Effect.bentoExport ("celestial_bodies_classifier_model" ++ ":latest")
          (modelFolder ++ "/celestial_bodies_classifier_model.bentomodel"),
        Effect.npySave (modelFolder ++ "/history.npy") history,
        Effect.printMsg ("\nModel saved at " ++ absolute modelFolder) ] := by
  constructor
  · rfl
  · simp [savePhase]

/-- C7: for every epoch count N > 0 the Training History has exactly N
records, their epoch numbers are 1, 2, ..., N in order (strictly increasing
from 1 to N, no dropped epochs), and each record carries the four metric
values exactly as the engine produced them for that epoch. -/
theorem fitHistory_complete (N : ℕ) (m : MetricOracle) (hN : 0 < N) :
    (fitHistory N m).length = N
    ∧ (fitHistory N m).map (fun r => r.epoch) = (List.range N).map (fun i => i + 1)
    ∧ ((fitHistory N m).map (fun r => r.epoch)).head? = some 1
    ∧ List.Chain' (fun a b => a < b) ((fitHistory N m).map (fun r => r.epoch))
    ∧ ∀ i (h : i < N),
        (fitHistory N m).get ⟨i, by simpa [fitHistory] using h⟩ =
          { epoch := i + 1,
            loss := (m (i + 1)).1,
            accuracy := (m (i + 1)).2.1,
            val_loss := (m (i + 1)).2.2.1,
            val_accuracy := (m (i + 1)).2.2.2 } := by
  refine ⟨by simp [fitHistory], by simp [fitHistory], ?_, ?_, ?_⟩
  · have : N = (N - 1) + 1 := (Nat.succ_pred_eq_of_pos hN).symm
    rw [this]
    simp [fitHistory, List.range_succ_eq_map]
  · have : (fitHistory N m).map (fun r => r.epoch) = (List.range N).map (fun i => i + 1) := by
      simp [fitHistory]
    rw [this]
    apply List.chain'_map_of_chain' (R := fun a b => a < b)
    · intro a b hab
      exact Nat.succ_lt_succ hab
    · exact (List.pairwise_lt_range N).chain'
  · intro i h
    simp [fitHistory]

/-- Witness for C7 at N = 2 with a concrete metric oracle. -/
theorem fitHistory_complete_witness :
    (fitHistory 2 (fun _ => ((1 : ℝ), (0 : ℝ), (2 : ℝ), (0 : ℝ)))).length = 2
    ∧ (fitHistory 2 (fun _ => ((1 : ℝ), (0 : ℝ), (2 : ℝ), (0 : ℝ)))).map
        (fun r => r.epoch) = [1, 2] := by
  have h := fitHistory_complete 2 (fun _ => ((1 : ℝ), (0 : ℝ), (2 : ℝ), (0 : ℝ)))
    (by decide)
  refine ⟨h.1, ?_⟩
  rw [h.2.1]
  rfl

/-- C3: for every decodable raw image, preprocess converts it to
single-channel if the captured grayscale flag is true and three-channel
color otherwise, resizes it to the captured image_size whatever the input
dimensions were, scales the pixel values by dividing by 255 (mapping
[0, 255] into [0, 1]), and prepends a batch axis of size 1. -/
theorem preprocess_contract (grayscale : Bool) (image_size : ℕ × ℕ)
    (resample : Resampler) (img : PILImage) :
    (convert (if grayscale then Mode.L else Mode.RGB) img).mode =
      (if grayscale then Mode.L else Mode.RGB)
    ∧ (preprocess grayscale image_size resample img).shape =
        1 :: (if grayscale then [image_size.2, image_size.1]
              else [image_size.2, image_size.1, 3])
    ∧ (preprocess grayscale image_size resample img).data =
        (npOfImage (resize resample image_size
          (convert (if grayscale then Mode.L else Mode.RGB) img))).data.map
          (fun v => v / 255)
    ∧ ((∀ v ∈ (npOfImage (resize resample image_size
          (convert (if grayscale then Mode.L else Mode.RGB) img))).data,
          0 ≤ v ∧ v ≤ 255) →
        ∀ w ∈ (preprocess grayscale image_size resample img).data,
          0 ≤ w ∧ w ≤ 1) := by
  refine ⟨rfl, ?_, rfl, ?_⟩
  · cases grayscale <;>
      simp [preprocess, expandDims0, divScalar, npOfImage, resize, convert]
  · intro hb w hw
    simp only [preprocess, expandDims0, divScalar, List.mem_map] at hw
    obtain ⟨v, hv, rfl⟩ := hw
    obtain ⟨h0, h255⟩ := hb v hv
    constructor
    · positivity
    · rw [div_le_one (by norm_num)]
      linarith

/-- Witness for C3 at a concrete 1x2 RGB image resized to 2x1 in grayscale
mode, with a constant resampling kernel. -/
theorem preprocess_contract_witness :
    (preprocess true (2, 1) (fun _ _ _ _ => [100])
      { width := 1, height := 2, mode := Mode.RGB, px := fun _ _ => [10, 20, 30] }).shape
      = [1, 1, 2]
    ∧ ∀ w ∈ (preprocess true (2, 1) (fun _ _ _ _ => [100])
        { width := 1, height := 2, mode := Mode.RGB, px := fun _ _ => [10, 20, 30] }).data,
        0 ≤ w ∧ w ≤ 1 := by
  have h := preprocess_contract true (2, 1) (fun _ _ _ _ => [100])
    { width := 1, height := 2, mode := Mode.RGB, px := fun _ _ => [10, 20, 30] }
  exact ⟨by simpa using h.2.1, h.2.2.2 (by decide)⟩

/-- C9: with the grayscale flag true, preprocess returns a rank-3 array of
shape (1, height, width) with no trailing channel axis, while main builds
the model with declared input shape (*image_size, 1); only with grayscale
false does the output carry a trailing channel axis, with shape
(1, height, width, 3). -/
theorem preprocess_grayscale_shape_mismatch (image_size : ℕ × ℕ)
    (resample : Resampler) (img : PILImage) :
    (preprocess true image_size resample img).shape = [1, image_size.2, image_size.1]
    ∧ ((preprocess true image_size resample img).shape).length = 3
    ∧ image_shape image_size true = [image_size.1, image_size.2, 1]
    ∧ (image_shape image_size true).length = 3
    ∧ (preprocess false image_size resample img).shape =
        [1, image_size.2, image_size.1, 3] := by
  refine ⟨?_, ?_, rfl, rfl, ?_⟩ <;>
    simp [preprocess, expandDims0, divScalar, npOfImage, resize, convert]

/-- C8: two runs with identical seed, configuration and dataset present
identical initial weights, identical batch sequences and identical
Training Histories regardless of the ambient RNG state either process had,
because set_seed re-establishes the process-wide state from the seed alone
before model construction and dataset iteration. -/
theorem trainRun_deterministic (e : Engine) (ambient₁ ambient₂ : RngState)
    (seed : ℕ) (cfg : ℕ × ℕ × ℕ × ℕ) (epochs : ℕ) (ds : ℕ) :
    trainRun e ambient₁ seed cfg epochs ds = trainRun e ambient₂ seed cfg epochs ds := by
  rfl

/-! ### Lemmas about argmax, softmax and the probabilities dictionary -/

lemma argmaxAux_lt (n : ℕ) (l : List ℝ) :
    ∀ (best : ℝ) (bi i : ℕ), bi < n → i + l.length ≤ n → argmaxAux best bi i l < n := by
  induction l with
  | nil => intro best bi i hbi _; simpa [argmaxAux] using hbi
  | cons v rest ih =>
    intro best bi i hbi hlen
    simp only [List.length_cons] at hlen
    simp only [argmaxAux]
    split
    · exact ih v i (i + 1) (by omega) (by omega)
    · exact ih best bi (i + 1) hbi (by omega)

lemma argmaxIdx_lt (x : List ℝ) (hx : x ≠ []) : argmaxIdx x < x.length := by
  cases x with
  | nil => exact absurd rfl hx
  | cons v rest =>
    simp only [argmaxIdx, List.length_cons]
    exact argmaxAux_lt (rest.length + 1) rest v 0 1 (by omega) (by omega)

lemma argmaxAux_of_no_greater (l : List ℝ) :
    ∀ (best : ℝ) (bi i : ℕ), (∀ v ∈ l, ¬ best < v) → argmaxAux best bi i l = bi := by
  induction l with
  | nil => intro best bi i _; rfl
  | cons v rest ih =>
    intro best bi i h
    simp only [argmaxAux]
    rw [if_neg (h v (by simp))]
    exact ih best bi (i + 1) (fun w hw => h w (by simp [hw]))

lemma argmaxAux_cons (best : ℝ) (bi i : ℕ) (v : ℝ) (l : List ℝ) :
    argmaxAux best bi i (v :: l) =
      if best < v then argmaxAux v i (i + 1) l else argmaxAux best bi (i + 1) l := by
  simp only [argmaxAux]

lemma argmaxAux_zeros_then (c : ℝ) (hc : 0 < c) (rest : List ℝ) :
    ∀ (m bi i : ℕ),
      argmaxAux 0 bi i (List.replicate m (0 : ℝ) ++ c :: rest) =
        argmaxAux c (i + m) (i + m + 1) rest := by
  intro m
  induction m with
  | zero =>
    intro bi i
    rw [List.replicate_zero, List.nil_append, argmaxAux_cons, if_pos hc]
    simp
  | succ m ih =>
    intro bi i
    rw [List.replicate_succ, List.cons_append, argmaxAux_cons,
      if_neg (lt_irrefl (0 : ℝ)), ih bi (i + 1),
      show i + 1 + m = i + (m + 1) from by omega]

lemma argmaxIdx_oneHot (n k : ℕ) (c : ℝ) (hc : 0 < c) :
    argmaxIdx (oneHotScaled n k c) = k := by
  have hz : ∀ m : ℕ, ∀ v ∈ List.replicate m (0 : ℝ), ¬ c < v := by
    intro m v hv
    rw [List.eq_of_mem_replicate hv]
    exact not_lt.mpr hc.le
  cases k with
  | zero =>
    simp only [oneHotScaled, List.replicate_zero, List.nil_append, argmaxIdx]
    exact argmaxAux_of_no_greater _ c 0 1 (hz _)
  | succ k =>
    simp only [oneHotScaled, List.replicate_succ, List.cons_append, argmaxIdx]
    rw [argmaxAux_zeros_then c hc _ k 0 1,
        argmaxAux_of_no_greater _ c (1 + k) (1 + k + 1) (hz _)]
    omega

lemma sum_map_div (l : List ℝ) (f : ℝ → ℝ) (S : ℝ) :
    (l.map fun v => f v / S).sum = (l.map f).sum / S := by
  induction l with
  | nil => simp
  | cons a t ih => simp [add_div, ih]

lemma exp_sum_pos (x : List ℝ) (hx : x ≠ []) : 0 < (x.map Real.exp).sum := by
  cases x with
  | nil => exact absurd rfl hx
  | cons a t =>
    simp only [List.map_cons, List.sum_cons]
    have h1 : (0 : ℝ) ≤ (t.map Real.exp).sum :=
      List.sum_nonneg fun v hv => by
        obtain ⟨w, _, rfl⟩ := List.mem_map.mp hv
        exact (Real.exp_pos w).le
    linarith [Real.exp_pos a]

lemma softmax_length (x : List ℝ) : (softmax x).length = x.length := by
  simp [softmax]

lemma softmax_ne_nil (x : List ℝ) (hx : x ≠ []) : softmax x ≠ [] := by
  simpa [softmax] using hx

lemma softmax_sum_one (x : List ℝ) (hx : x ≠ []) : (softmax x).sum = 1 := by
  rw [softmax, sum_map_div]
  exact div_self (ne_of_gt (exp_sum_pos x hx))

lemma probsAux_some (labels : List String) (ps : List ℝ) :
    ∀ i : ℕ, i + ps.length ≤ labels.length →
      ∃ l, probsAux labels i ps = some l
        ∧ l.map Prod.fst = (labels.drop i).take ps.length
        ∧ l.map Prod.snd = ps := by
  induction ps with
  | nil => intro i _; exact ⟨[], rfl, by simp, rfl⟩
  | cons p ps ih =>
    intro i hi
    simp only [List.length_cons] at hi
    have hilt : i < labels.length := by omega
    obtain ⟨rest, hrest, hfst, hsnd⟩ := ih (i + 1) (by omega)
    refine ⟨(labels.get ⟨i, hilt⟩, p) :: rest, ?_, ?_, ?_⟩
    · simp only [probsAux]
      rw [List.get?_eq_get hilt, hrest]
    · simp only [List.map_cons, hfst, List.length_cons]
      rw [List.drop_eq_getElem_cons hilt, List.take_succ_cons]
      simp [List.get_eq_getElem]
    · simp [hsnd]

lemma probsAux_none (labels : List String) (ps : List ℝ) :
    ∀ i : ℕ, ps ≠ [] → labels.length < i + ps.length →
      probsAux labels i ps = none := by
  induction ps with
  | nil => intro i h _; exact absurd rfl h
  | cons p ps ih =>
    intro i _ hlen
    simp only [List.length_cons] at hlen
    simp only [probsAux]
    cases hget : labels.get? i with
    | none => rfl
    | some name =>
      have hilt : i < labels.length := by
        have := List.get?_eq_some.mp hget
        exact this.1
      cases ps with
      | nil =>
        simp only [List.length_nil] at hlen
        omega
      | cons q qs =>
        rw [ih (i + 1) (by simp) (by omega)]

/-! ### Theorems about postprocess -/

/-- Counterexample for C2: a logits row of length 1 against a label list of
length 2 has mismatched lengths, yet postprocess succeeds; no ShapeError
failure occurs. -/
theorem postprocess_shape_counterexample :
    ([(5 : ℝ)].length ≠ (["star", "planet"] : List String).length)
    ∧ (postprocess ["star", "planet"] [(5 : ℝ)]).isSome = true := by
  refine ⟨by decide, ?_⟩
  simp [postprocess, argmaxIdx, argmaxAux, softmax, probsAux]

/-- C2 amended: postprocess performs no length check against the label
list; on a nonempty logits row it succeeds exactly when the row is no
longer than the label list (a shorter row succeeds rather than failing),
and when the row is longer it fails with a plain IndexError from the label
lookup — no ShapeError exists in the code. -/
theorem postprocess_success_iff (labels : List String) (x : List ℝ) (hx : x ≠ []) :
    (postprocess labels x).isSome = true ↔ x.length ≤ labels.length := by
  constructor
  · intro h
    by_contra hgt
    push_neg at hgt
    have hps : probsAux labels 0 (softmax x) = none :=
      probsAux_none labels (softmax x) 0 (softmax_ne_nil x hx)
        (by rw [softmax_length]; omega)
    rw [postprocess, hps] at h
    cases hget : labels.get? (argmaxIdx x) <;> rw [hget] at h <;> simp at h
  · intro h
    obtain ⟨l, hl, _, _⟩ :=
      probsAux_some labels (softmax x) 0 (by rw [softmax_length]; omega)
    have hidx : argmaxIdx x < labels.length :=
      lt_of_lt_of_le (argmaxIdx_lt x hx) h
    rw [postprocess, hl, List.get?_eq_get hidx]
    rfl

/-- Witness for C2 amended at labels = [star, planet] and the length-1
logits row [3]. -/
theorem postprocess_success_iff_witness :
    (postprocess ["star", "planet"] [(3 : ℝ)]).isSome = true :=
  (postprocess_success_iff ["star", "planet"] [(3 : ℝ)] (by simp)).mpr (by simp)

/-- C4: for every label list and scaled one-hot logits row of matching
length (hot index k, positive scale c), postprocess returns the label at
index k as the prediction together with a probabilities mapping pairing
every label, in declared order, with its softmax probability, and the
probabilities sum to 1 exactly. -/
theorem postprocess_onehot_roundtrip (labels : List String) (k : ℕ) (c : ℝ)
    (hk : k < labels.length) (hc : 0 < c) :
    ∃ probs,
      postprocess labels (oneHotScaled labels.length k c) =
        some (labels.get ⟨k, hk⟩, probs)
      ∧ probs.map Prod.fst = labels
      ∧ probs.map Prod.snd = softmax (oneHotScaled labels.length k c)
      ∧ (probs.map Prod.snd).sum = 1 := by
  have hlen : (oneHotScaled labels.length k c).length = labels.length := by
    simp only [oneHotScaled, List.length_append, List.length_replicate,
      List.length_cons]
    omega
  have hxne : oneHotScaled labels.length k c ≠ [] := by
    intro hnil
    rw [hnil] at hlen
    simp at hlen
    omega
  have hidx : argmaxIdx (oneHotScaled labels.length k c) = k :=
    argmaxIdx_oneHot labels.length k c hc
  obtain ⟨l, hl, hfst, hsnd⟩ :=
    probsAux_some labels (softmax (oneHotScaled labels.length k c)) 0
      (by rw [softmax_length, hlen]; omega)
  refine ⟨l, ?_, ?_, hsnd, ?_⟩
  · simp only [postprocess, hidx, hl]
    rw [List.get?_eq_get hk]
  · rw [hfst, softmax_length, hlen]
    simp
  · rw [hsnd, softmax_sum_one _ hxne]

/-- Witness for C4 at labels = [star, planet], hot index 0, scale 1000. -/
theorem postprocess_onehot_roundtrip_witness :
    ∃ probs,
      postprocess ["star", "planet"] (oneHotScaled 2 0 1000) =
        some ("star", probs)
      ∧ probs.map Prod.fst = ["star", "planet"]
      ∧ (probs.map Prod.snd).sum = 1 := by
  obtain ⟨probs, h1, h2, _, h4⟩ :=
    postprocess_onehot_roundtrip ["star", "planet"] 0 1000 (by decide) (by norm_num)
  exact ⟨probs, h1, h2, h4⟩

/-- C10: postprocess checks no lengths: a nonempty logits row no longer
than the label list succeeds, and its probabilities dictionary covers
exactly the first (length of the row) labels in order, the rest silently
absent; a row strictly longer than the label list makes the label lookup
in the dictionary comprehension fail with a plain IndexError, modelled by
none. -/
theorem postprocess_partial_or_indexerror (labels : List String) (x : List ℝ)
    (hx : x ≠ []) :
    (x.length ≤ labels.length →
      ∃ pred probs, postprocess labels x = some (pred, probs)
        ∧ probs.map Prod.fst = labels.take x.length
        ∧ labels.get? (argmaxIdx x) = some pred)
    ∧ (labels.length < x.length → postprocess labels x = none) := by
  constructor
  · intro h
    obtain ⟨l, hl, hfst, _⟩ :=
      probsAux_some labels (softmax x) 0 (by rw [softmax_length]; omega)
    have hidx : argmaxIdx x < labels.length :=
      lt_of_lt_of_le (argmaxIdx_lt x hx) h
    refine ⟨labels.get ⟨argmaxIdx x, hidx⟩, l, ?_, ?_, List.get?_eq_get hidx⟩
    · simp only [postprocess, hl]
      rw [List.get?_eq_get hidx]
    · rw [hfst, softmax_length]
      simp
  · intro h
    have hps : probsAux labels 0 (softmax x) = none :=
      probsAux_none labels (softmax x) 0 (softmax_ne_nil x hx)
        (by rw [softmax_length]; omega)
    rw [postprocess, hps]
    cases labels.get? (argmaxIdx x) <;> rfl

/-- Witness for C10: a length-2 row against three labels succeeds covering
the first two labels only; a length-3 row against two labels fails. -/
theorem postprocess_partial_or_indexerror_witness :
    (∃ pred probs,
      postprocess ["star", "planet", "moon"] [(2 : ℝ), 1] = some (pred, probs)
      ∧ probs.map Prod.fst = ["star", "planet"]
      ∧ (["star", "planet", "moon"] : List String).get?
          (argmaxIdx [(2 : ℝ), 1]) = some pred)
    ∧ postprocess ["star", "planet"] [(1 : ℝ), 2, 3] = none := by
  constructor
  · have h :=
      (postprocess_partial_or_indexerror ["star", "planet", "moon"] [(2 : ℝ), 1]
        (by simp)).1 (by simp)
    simpa using h
  · exact
      (postprocess_partial_or_indexerror ["star", "planet"] [(1 : ℝ), 2, 3]
        (by simp)).2 (by simp)

end MlopsWorkshop
